import Mathlib

/-!
Verification development for the Icarus multi-agent trading system.

Shallow embedding of the event bus (`src/core/event_bus.py`), the agent
lifecycle (`src/agents/base.py`), the paper/live trade execution agent
(`src/agents/execution.py`) and the fork lifecycle manager
(`src/agents/fork_manager.py`), together with proofs of the behavioural
claims about them.

Conventions: Python `Decimal` arithmetic is embedded as exact rational
arithmetic (`ℚ`); Python `dict`s are embedded as association lists whose
keys are unique (dict semantics), so deleting a key is embedded as
filtering that key out; `asyncio.Queue` is embedded as a bounded list with
the front of the list being the head of the queue.
-/

namespace Icarus

/-- An event instance: the runtime type tag (the event class name, e.g.
"MarketTickEvent") together with a payload identifier distinguishing
distinct event instances. -/
structure Event where
  typeName : String
  payload : Nat
deriving DecidableEq, Repr

/-- Modelled from the spec: `get_event_type` lives in `src/models/events.py`,
which is absent from the sources; the spec says events are dispatched "keyed
by the runtime type-tag", and the repository's tests assert
`get_event_type(event) == 'MarketTickEvent'`, i.e. it returns the event's
class name. -/
def get_event_type (e : Event) : String := e.typeName

/-- `asyncio.Queue(maxsize)`: `maxsize = 0` means unbounded; items are kept
front-first (`get` takes the head, `put` appends at the back). -/
structure MQueue where
  maxsize : Nat
  items : List Event
deriving DecidableEq, Repr

/-- `asyncio.Queue.full()`: true when the queue is bounded and holds at
least `maxsize` items. -/
def MQueue.full (q : MQueue) : Bool :=
  decide (0 < q.maxsize ∧ q.maxsize ≤ q.items.length)

/-- Result of `Queue.put_nowait`: either the updated queue or the
`asyncio.QueueFull` exception. -/
inductive PutResult
  | ok (q : MQueue)
  | queueFull
deriving DecidableEq, Repr

/-- `Queue.put_nowait(e)`: raises `QueueFull` when full, otherwise appends. -/
def MQueue.put_nowait (q : MQueue) (e : Event) : PutResult :=
  if q.full then .queueFull else .ok { q with items := q.items ++ [e] }

/-- The `try: put_nowait / except QueueFull: drop` body of `EventBus.publish`:
a full queue drops the event (logged as a warning), any other queue receives
exactly one copy. -/
def putDrop (e : Event) (q : MQueue) : MQueue :=
  match q.put_nowait e with
  | .ok q' => q'
  | .queueFull => q

-- ---------------------------------------------------------------------------
-- Association-list embedding of Python dicts (keys unique).
-- ---------------------------------------------------------------------------

/-- `d.get(k)` / `d[k]` read: value of the first (unique) binding of `k`. -/
def lookupKey {α : Type} (l : List (String × α)) (k : String) : Option α :=
  (l.find? (fun kv => kv.1 == k)).map (·.2)

/-- `d[k] = v`: overwrite the (unique) binding of `k`, or append a new
binding when the key is absent (dicts keep insertion order). -/
def updateKey {α : Type} : List (String × α) → String → α → List (String × α)
  | [], k, v => [(k, v)]
  | kv :: rest, k, v =>
      if kv.1 == k then (k, v) :: rest else kv :: updateKey rest k v

/-- `del d[k]` / `d.pop(k)`: keys of a Python dict are unique, so deleting
the key removes its unique binding; embedded as filtering the key out. -/
def removeKey {α : Type} (l : List (String × α)) (k : String) : List (String × α) :=
  l.filter (fun kv => kv.1 ≠ k)

/-- Apply `f` to the value bound to key `k`, leaving other bindings alone
(the effect on the registry of mutating the queue objects held under one
event-type key). -/
def mapKey {α : Type} (l : List (String × α)) (k : String) (f : α → α) :
    List (String × α) :=
  l.map (fun kv => if kv.1 == k then (kv.1, f kv.2) else kv)

theorem lookupKey_mapKey {α : Type} (l : List (String × α)) (k : String) (f : α → α) :
    lookupKey (mapKey l k f) k = (lookupKey l k).map f := by
  induction l with
  | nil => rfl
  | cons kv rest ih =>
      by_cases h : kv.1 = k
      · simp [lookupKey, mapKey, List.find?, h]
      · have hb : (kv.1 == k) = false := by simp [h]
        simpa [lookupKey, mapKey, List.find?, hb] using ih

theorem lookupKey_updateKey_self {α : Type} (l : List (String × α)) (k : String) (v : α) :
    lookupKey (updateKey l k v) k = some v := by
  induction l with
  | nil => simp [lookupKey, updateKey, List.find?]
  | cons kv rest ih =>
      by_cases h : kv.1 = k
      · simp [updateKey, lookupKey, List.find?, h]
      · have hb : (kv.1 == k) = false := by simp [h]
        simpa [updateKey, lookupKey, List.find?, hb] using ih

theorem lookupKey_removeKey_self {α : Type} (l : List (String × α)) (k : String) :
    lookupKey (removeKey l k) k = none := by
  induction l with
  | nil => rfl
  | cons kv rest ih =>
      by_cases h : kv.1 = k
      · simp [removeKey, lookupKey, List.filter, h]
      · have hb : (kv.1 == k) = false := by simp [h]
        simp [removeKey, lookupKey, List.filter, List.find?, h, hb]

theorem length_updateKey_le {α : Type} (l : List (String × α)) (k : String) (v : α) :
    (updateKey l k v).length ≤ l.length + 1 := by
  induction l with
  | nil => simp [updateKey]
  | cons kv rest ih =>
      by_cases h : kv.1 = k
      · simp [updateKey, h]
      · have hb : (kv.1 == k) = false := by simp [h]
        simp only [updateKey, hb, Bool.false_eq_true, if_false, List.length_cons]
        omega

theorem length_removeKey_le {α : Type} (l : List (String × α)) (k : String) :
    (removeKey l k).length ≤ l.length :=
  List.length_filter_le _ l

-- ---------------------------------------------------------------------------
-- EventBus (src/core/event_bus.py)
-- ---------------------------------------------------------------------------

/-- `EventBus` state: the configured per-queue capacity, the registry
`event type name → list of subscriber queues` (a `defaultdict(list)`), and
the published-events counter. -/
structure EventBus where
  max_queue_size : Nat
  subscribers : List (String × List MQueue)
  published_count : Nat
deriving DecidableEq, Repr

/-- `EventBus(max_queue_size=1000)`. -/
def EventBus.mk_initial (max_queue_size : Nat := 1000) : EventBus :=
  { max_queue_size := max_queue_size, subscribers := [], published_count := 0 }

/-- `self._subscribers.get(event_type_name, [])`. -/
def EventBus.getSubs (b : EventBus) (name : String) : List MQueue :=
  (lookupKey b.subscribers name).getD []

/-- `EventBus.subscribe`: create a fresh bounded queue, append it to the
type's subscriber list (the `defaultdict` creates the entry on first use),
and return the queue handle. -/
def EventBus.subscribe (b : EventBus) (name : String) : EventBus × MQueue :=
  let q : MQueue := { maxsize := b.max_queue_size, items := [] }
  ({ b with subscribers := updateKey b.subscribers name (b.getSubs name ++ [q]) }, q)

/-- `EventBus.publish`: look up the event type's subscribers; with zero
subscribers return immediately (a no-op, the counter is not bumped);
otherwise attempt a non-blocking put on every subscriber queue, dropping
the event for each full queue, then bump the counter.  The function is
total: the `QueueFull` exception is caught inside the loop, so publish
never raises to the caller. -/
def EventBus.publish (b : EventBus) (e : Event) : EventBus :=
  let name := get_event_type e
  let subs := b.getSubs name
  if subs.isEmpty then b
  else
    { b with
      subscribers := mapKey b.subscribers name (fun qs => qs.map (putDrop e)),
      published_count := b.published_count + 1 }

/-- `EventBus.get_total_subscribers`. -/
def EventBus.get_total_subscribers (b : EventBus) : Nat :=
  (b.subscribers.map (fun kv => kv.2.length)).sum

/-- The drain loop inside `EventBus.close`: every subscriber queue is
emptied with `get_nowait` until empty. -/
def EventBus.drainAll (b : EventBus) : EventBus :=
  { b with
    subscribers := b.subscribers.map (fun kv => (kv.1, kv.2.map (fun q => { q with items := [] }))) }

/-- `EventBus.close`: drain every queue, then clear the registry. -/
def EventBus.close (b : EventBus) : EventBus :=
  { b.drainAll with subscribers := [] }

theorem putDrop_eq (e : Event) (q : MQueue) :
    putDrop e q = if q.full then q else { q with items := q.items ++ [e] } := by
  by_cases h : q.full <;> simp [putDrop, MQueue.put_nowait, h]

-- ---------------------------------------------------------------------------
-- Single-queue consumption histories (publish's put_nowait + consume_events)
-- ---------------------------------------------------------------------------

/-- History of one subscriber queue: the queue contents, the events
successfully enqueued so far (in publish order, excluding events dropped
for fullness), and the events consumed so far (in consumption order). -/
structure QueueTrace where
  queue : MQueue
  enqueuedOk : List Event
  consumed : List Event
deriving DecidableEq, Repr

/-- One interaction with a subscriber queue: `enq e` is the per-queue effect
of `EventBus.publish` (a `put_nowait` that drops the event when the queue is
full), `deq` is one `await queue.get()` performed by `consume_events` (an
empty queue would suspend the consumer, leaving the history unchanged). -/
inductive QueueOp
  | enq (e : Event)
  | deq
deriving DecidableEq, Repr

def stepQueue (t : QueueTrace) : QueueOp → QueueTrace
  | .enq e =>
      match t.queue.put_nowait e with
      | .ok q' => { t with queue := q', enqueuedOk := t.enqueuedOk ++ [e] }
      | .queueFull => t
  | .deq =>
      match t.queue.items with
      | [] => t
      | x :: rest =>
          { queue := { t.queue with items := rest },
            enqueuedOk := t.enqueuedOk,
            consumed := t.consumed ++ [x] }

def runQueue (t : QueueTrace) (ops : List QueueOp) : QueueTrace :=
  ops.foldl stepQueue t

/-- A fresh subscriber queue as handed out by `EventBus.subscribe`. -/
def emptyTrace (maxsize : Nat) : QueueTrace :=
  { queue := { maxsize := maxsize, items := [] }, enqueuedOk := [], consumed := [] }

theorem stepQueue_inv (t : QueueTrace) (op : QueueOp)
    (h : t.consumed ++ t.queue.items = t.enqueuedOk) :
    (stepQueue t op).consumed ++ (stepQueue t op).queue.items = (stepQueue t op).enqueuedOk := by
  cases op with
  | enq e =>
      unfold stepQueue
      by_cases hf : t.queue.full
      · simp [MQueue.put_nowait, hf, h]
      · simp [MQueue.put_nowait, hf]
        rw [← List.append_assoc, h]
  | deq =>
      unfold stepQueue
      cases hit : t.queue.items with
      | nil => simpa [hit] using h
      | cons x rest =>
          simp only []
          rw [List.append_assoc]
          simpa [hit] using h

theorem runQueue_inv (ops : List QueueOp) (t : QueueTrace)
    (h : t.consumed ++ t.queue.items = t.enqueuedOk) :
    (runQueue t ops).consumed ++ (runQueue t ops).queue.items = (runQueue t ops).enqueuedOk := by
  induction ops generalizing t with
  | nil => simpa [runQueue] using h
  | cons op rest ih =>
      simpa [runQueue] using ih (stepQueue t op) (stepQueue_inv t op h)

-- ---------------------------------------------------------------------------
-- Claims C1, C2, C10
-- ---------------------------------------------------------------------------

/-- C1: for every event `e` and every set of queues subscribed to `e`'s
type, `EventBus.publish` enqueues exactly one copy of `e` (the item list is
extended by exactly `[e]`) onto each subscriber queue that is not full at
publish time, enqueues nothing onto a full queue, raises no exception to
the caller in either case (`publish` is a total function; the `QueueFull`
exception is caught in the loop), and is a no-op — the bus is returned
unchanged, not an error — when zero subscribers exist for the type. -/
theorem publish_one_copy_per_nonfull_queue (b : EventBus) (e : Event) :
    (b.getSubs (get_event_type e) = [] → b.publish e = b) ∧
    (b.publish e).getSubs (get_event_type e)
      = (b.getSubs (get_event_type e)).map
          (fun q => if q.full then q else { q with items := q.items ++ [e] }) := by
  constructor
  · intro h
    simp only [EventBus.publish, h, List.isEmpty_nil, if_true]
  · by_cases h : b.getSubs (get_event_type e) = []
    · simp only [EventBus.publish, h, List.isEmpty_nil, if_true, List.map_nil]
    · have hne : (b.getSubs (get_event_type e)).isEmpty = false := by
        simpa [List.isEmpty_iff] using h
      have hlk : lookupKey b.subscribers (get_event_type e)
          = some (b.getSubs (get_event_type e)) := by
        cases hc : lookupKey b.subscribers (get_event_type e) with
        | none => exact absurd (by simp [EventBus.getSubs, hc]) h
        | some l => simp [EventBus.getSubs, hc]
      have hstep : (b.publish e).getSubs (get_event_type e)
          = (b.getSubs (get_event_type e)).map (putDrop e) := by
        have hpub : b.publish e
            = { b with
                subscribers := mapKey b.subscribers (get_event_type e)
                  (fun qs => qs.map (putDrop e)),
                published_count := b.published_count + 1 } := by
          simp only [EventBus.publish, hne, Bool.false_eq_true, if_false]
        rw [hpub]
        show (lookupKey (mapKey b.subscribers (get_event_type e)
            (fun qs => qs.map (putDrop e))) (get_event_type e)).getD []
          = (b.getSubs (get_event_type e)).map (putDrop e)
        rw [lookupKey_mapKey, hlk]
        rfl
      rw [hstep]
      exact List.map_congr_left (fun q _ => putDrop_eq e q)

/-- C1 witness: publishing on a two-subscriber bus (one full queue of
capacity 1, one fresh queue) delivers exactly one copy to the non-full
queue, drops on the full queue, and publishing a type with no subscribers
is a no-op. -/
theorem publish_one_copy_per_nonfull_queue_witness :
    ((EventBus.mk_initial 2).publish ⟨"MarketTickEvent", 0⟩ = EventBus.mk_initial 2) ∧
    ({ max_queue_size := 1,
       subscribers := [("MarketTickEvent",
         [⟨1, [⟨"MarketTickEvent", 7⟩]⟩, ⟨1, []⟩])],
       published_count := 0 : EventBus }.publish ⟨"MarketTickEvent", 9⟩).getSubs "MarketTickEvent"
      = [⟨1, [⟨"MarketTickEvent", 7⟩]⟩, ⟨1, [⟨"MarketTickEvent", 9⟩]⟩] := by
  constructor
  · exact (publish_one_copy_per_nonfull_queue (EventBus.mk_initial 2)
      ⟨"MarketTickEvent", 0⟩).1 (by decide)
  · exact ((publish_one_copy_per_nonfull_queue
      { max_queue_size := 1,
        subscribers := [("MarketTickEvent",
          [⟨1, [⟨"MarketTickEvent", 7⟩]⟩, ⟨1, []⟩])],
        published_count := 0 } ⟨"MarketTickEvent", 9⟩).2).trans (by decide)

/-- C2: for a single subscriber queue and any sequence of interleaved
publishes and consumes, the events consumed so far followed by the events
still queued equal exactly the events successfully enqueued (those not
dropped for fullness) in publish order — so consumption order is exactly
publish order (per-queue FIFO). -/
theorem queue_fifo_consumption (maxsize : Nat) (ops : List QueueOp) :
    (runQueue (emptyTrace maxsize) ops).consumed
        ++ (runQueue (emptyTrace maxsize) ops).queue.items
      = (runQueue (emptyTrace maxsize) ops).enqueuedOk :=
  runQueue_inv ops (emptyTrace maxsize) rfl

/-- C10: after `EventBus.close` the queues have been drained and the
registry is empty (total subscriber count 0); a publish on the closed bus
raises no error and delivers to no one (the closed bus is returned
unchanged); and a subsequent subscribe succeeds, yielding a fresh queue
that receives a matching published event — the bus does not enforce a
no-reuse-after-close rule. -/
theorem close_empties_bus_and_allows_reuse (b : EventBus) (e : Event) :
    b.close.get_total_subscribers = 0 ∧
    (∀ kv ∈ b.drainAll.subscribers, ∀ q ∈ kv.2, q.items = []) ∧
    b.close.publish e = b.close ∧
    ((b.close.subscribe (get_event_type e)).1.publish e).getSubs (get_event_type e)
      = [{ maxsize := b.max_queue_size, items := [e] }] := by
  refine ⟨rfl, ?_, ?_, ?_⟩
  · intro kv hkv q hq
    simp only [EventBus.drainAll, List.mem_map] at hkv
    obtain ⟨kv₀, _, rfl⟩ := hkv
    simp only [List.mem_map] at hq
    obtain ⟨q₀, _, rfl⟩ := hq
    rfl
  · simp [EventBus.publish, EventBus.getSubs, EventBus.close, lookupKey]
  · have hfull : MQueue.full { maxsize := b.max_queue_size, items := [] } = false := by
      simp [MQueue.full]
      omega
    simp [EventBus.subscribe, EventBus.close, EventBus.drainAll, EventBus.getSubs,
      EventBus.publish, lookupKey, updateKey, mapKey, putDrop, MQueue.put_nowait,
      hfull, List.find?]

/-- C10 witness: closing a bus that has one subscriber with a queued event,
then publishing and re-subscribing on the same instance. -/
theorem close_empties_bus_and_allows_reuse_witness :
    ({ max_queue_size := 3,
       subscribers := [("MarketTickEvent", [⟨3, [⟨"MarketTickEvent", 1⟩]⟩])],
       published_count := 5 : EventBus }.close.get_total_subscribers = 0) ∧
    (({ max_queue_size := 3,
        subscribers := [("MarketTickEvent", [⟨3, [⟨"MarketTickEvent", 1⟩]⟩])],
        published_count := 5 : EventBus }.close.subscribe
          "MarketTickEvent").1.publish ⟨"MarketTickEvent", 2⟩).getSubs "MarketTickEvent"
      = [{ maxsize := 3, items := [⟨"MarketTickEvent", 2⟩] }] := by
  have h := close_empties_bus_and_allows_reuse
    { max_queue_size := 3,
      subscribers := [("MarketTickEvent", [⟨3, [⟨"MarketTickEvent", 1⟩]⟩])],
      published_count := 5 } ⟨"MarketTickEvent", 2⟩
  exact ⟨h.1, h.2.2.2⟩

-- ---------------------------------------------------------------------------
-- BaseAgent lifecycle (src/agents/base.py)
-- ---------------------------------------------------------------------------

/-- How the abstract `start()` body of an agent terminates: normal return,
`asyncio.CancelledError`, or an uncaught exception carrying its Python type
name and message. -/
inductive StartOutcome
  | normal
  | cancelled
  | failed (error_type error_message : String)
deriving DecidableEq, Repr

/-- The lifecycle events an agent's `run()` publishes (`AgentHeartbeatEvent`
is a separate event type emitted by the heartbeat loop and is none of
these). -/
inductive LifecycleEvent
  | agentStarted (agent_name : String)
  | agentStopped (agent_name : String) (reason : String)
  | agentError (agent_name : String) (error_type error_message : String) (is_fatal : Bool)
deriving DecidableEq, Repr

/-- How `run()` itself returns to its caller: normal completion, re-raised
cancellation, or a re-raised exception. -/
inductive RunResult
  | completed
  | raisedCancelled
  | raised (error_type error_message : String)
deriving DecidableEq, Repr

def LifecycleEvent.isStarted : LifecycleEvent → Bool
  | .agentStarted _ => true
  | _ => false

def LifecycleEvent.isStopped : LifecycleEvent → Bool
  | .agentStopped _ _ => true
  | _ => false

/-- `BaseAgent._cleanup`: cancel the heartbeat task, call the `stop()` hook,
and publish `AgentStoppedEvent(reason="normal_shutdown")`. -/
def cleanupEvents (name : String) : List LifecycleEvent :=
  [.agentStopped name "normal_shutdown"]

/-- `BaseAgent.run`: the `try`/`except CancelledError`/`except Exception`/
`finally` block.  The trace lists the lifecycle events published in order;
`self.publish` catches publication errors internally, so every publish call
appends its event.  The `finally` clause runs `_cleanup` on all three exit
paths. -/
def BaseAgent.run (name : String) (outcome : StartOutcome) :
    List LifecycleEvent × RunResult :=
  match outcome with
  | .normal =>
      ([.agentStarted name] ++ cleanupEvents name, .completed)
  | .cancelled =>
      ([.agentStarted name] ++ cleanupEvents name, .raisedCancelled)
  | .failed t m =>
      ([.agentStarted name] ++ [.agentError name t m true] ++ cleanupEvents name,
       .raised t m)

/-- C3: one call to `run()` publishes exactly one `AgentStarted` event, and
an `AgentStopped` event is published on every exit path of `start()` —
normal return, uncaught exception, and cancellation; on an uncaught
non-cancellation exception, `run()` additionally publishes a fatal
`AgentError` event before cleanup (so before the `AgentStopped`) and
re-raises the exception to the caller after cleanup completes. -/
theorem run_lifecycle_events (name : String) (outcome : StartOutcome) :
    ((BaseAgent.run name outcome).1.countP (·.isStarted) = 1) ∧
    ((BaseAgent.run name outcome).1.countP (·.isStopped) = 1) ∧
    (outcome = .normal → BaseAgent.run name outcome
      = ([.agentStarted name, .agentStopped name "normal_shutdown"], .completed)) ∧
    (outcome = .cancelled → BaseAgent.run name outcome
      = ([.agentStarted name, .agentStopped name "normal_shutdown"], .raisedCancelled)) ∧
    (∀ t m, outcome = .failed t m → BaseAgent.run name outcome
      = ([.agentStarted name, .agentError name t m true,
          .agentStopped name "normal_shutdown"], .raised t m)) := by
  cases outcome <;>
    simp [BaseAgent.run, cleanupEvents, List.countP, List.countP.go,
      LifecycleEvent.isStarted, LifecycleEvent.isStopped]

/-- C3 witness: the error path at a concrete agent and exception. -/
theorem run_lifecycle_events_witness :
    BaseAgent.run "execution" (.failed "ValueError" "boom")
      = ([.agentStarted "execution", .agentError "execution" "ValueError" "boom" true,
          .agentStopped "execution" "normal_shutdown"], .raised "ValueError" "boom") :=
  (run_lifecycle_events "execution" (.failed "ValueError" "boom")).2.2.2.2
    "ValueError" "boom" rfl

-- ---------------------------------------------------------------------------
-- Trade execution agent (src/agents/execution.py)
-- ---------------------------------------------------------------------------

inductive Side
  | buy
  | sell
deriving DecidableEq, Repr

/-- `calculate_slippage_price`: buying costs more, selling gets less. -/
def calculate_slippage_price (market_price : ℚ) (side : Side) (slippage_pct : ℚ) : ℚ :=
  match side with
  | .buy => market_price * (1 + slippage_pct)
  | .sell => market_price * (1 - slippage_pct)

/-- One strategy's portfolio: `{'cash': ..., 'positions': {symbol: qty}}`. -/
structure Portfolio where
  cash : ℚ
  positions : List (String × ℚ)
deriving DecidableEq, Repr

/-- The execution agent's configuration, with the percentages already
divided by 100 as in `TradeExecutionAgent.__init__` (defaults: position
size 20% → 1/5, exit 50% → 1/2, slippage 0.1% → 1/1000). -/
structure ExecConfig where
  initial_capital : ℚ
  position_size_pct : ℚ
  position_exit_pct : ℚ
  slippage_enabled : Bool
  slippage_pct : ℚ
deriving DecidableEq, Repr

/-- A simulated fill as recorded in the `Trade` model and the
`TradeExecutedEvent`. -/
structure TradeFill where
  side : Side
  symbol : String
  quantity : ℚ
  price : ℚ
  fee : ℚ
deriving DecidableEq, Repr

/-- `TradeExecutionAgent._execute_buy` (paper mode).  `allocation_pct` is
the strategy's current allocation percentage; `market_price` is
`self.current_prices.get(signal.symbol)`.  Returns the updated portfolio
and the fill, or the unchanged portfolio and no fill when the order is
rejected (insufficient cash or unknown price). -/
def execute_buy (cfg : ExecConfig) (allocation_pct : ℚ) (symbol : String)
    (market_price : Option ℚ) (p : Portfolio) : Portfolio × Option TradeFill :=
  let allocated_capital := cfg.initial_capital * (allocation_pct / 100)
  let cash_to_use := min (allocated_capital * cfg.position_size_pct) p.cash
  if cash_to_use < 10 then (p, none)
  else
    match market_price with
    | none => (p, none)
    | some mp =>
        let fill_price :=
          if cfg.slippage_enabled then calculate_slippage_price mp .buy cfg.slippage_pct
          else mp
        let quantity := cash_to_use / fill_price
        let fee := quantity * fill_price * (1 / 1000)
        ({ cash := p.cash - (quantity * fill_price + fee),
           positions := updateKey p.positions symbol
             ((lookupKey p.positions symbol).getD 0 + quantity) },
         some ⟨.buy, symbol, quantity, fill_price, fee⟩)

/-- `TradeExecutionAgent._execute_sell` (paper mode): sell
`position_exit_pct` of the current position; delete the position entry when
the remaining quantity is at most the dust threshold `0.0001`. -/
def execute_sell (cfg : ExecConfig) (symbol : String)
    (market_price : Option ℚ) (p : Portfolio) : Portfolio × Option TradeFill :=
  match lookupKey p.positions symbol with
  | none => (p, none)
  | some position_quantity =>
      if position_quantity ≤ 0 then (p, none)
      else
        match market_price with
        | none => (p, none)
        | some mp =>
            let fill_price :=
              if cfg.slippage_enabled then calculate_slippage_price mp .sell cfg.slippage_pct
              else mp
            let quantity := position_quantity * cfg.position_exit_pct
            let fee := quantity * fill_price * (1 / 1000)
            let cash_received := quantity * fill_price - fee
            let remaining := position_quantity - quantity
            let positions1 := updateKey p.positions symbol remaining
            let positions2 :=
              if remaining ≤ 1 / 10000 then removeKey positions1 symbol else positions1
            ({ cash := p.cash + cash_received, positions := positions2 },
             some ⟨.sell, symbol, quantity, fill_price, fee⟩)

/-- C4 counterexample: with initial capital 10000, allocation 10%, position
size 20% and no slippage, a portfolio holding exactly $100 of cash and a
known price of $10 satisfies every precondition of the claim (the spend
amount is `min(10000·10%·20%, 100) = 100 ≥ $10`), yet the 0.1% fee is
charged on top of the spend, leaving cash at `100 − (100 + 0.1) = −0.1`:
the resulting cash is negative, contradicting "the resulting cash is never
negative". -/
theorem execute_buy_negative_cash_counterexample :
    10 ≤ min ((10000 : ℚ) * (10 / 100) * (1 / 5)) (100 : ℚ) ∧
    (execute_buy ⟨10000, 1 / 5, 1 / 2, false, 1 / 1000⟩ 10 "BTCUSDT"
        (some 10) ⟨100, []⟩).1.cash = -(1 / 10) := by
  constructor
  · norm_num
  · norm_num [execute_buy, updateKey, lookupKey]

/-- C4 (amended): for a paper-mode buy whose strategy has spend amount
`spend = min(initial_capital · allocation_pct/100 · position_size_pct, cash)`
at least the $10 minimum notional and a known positive price, the buy
strictly decreases cash (by exactly `spend · 1.001`, the spend plus the
0.1% fee), strictly increases (or creates) the symbol's position by exactly
`spend / fill_price`, and the resulting cash is never below `−0.001·spend`
(minus the fee); it is non-negative whenever the starting cash also covers
the fee, but it can be negative by up to the fee when the spend consumes
all remaining cash. -/
theorem execute_buy_cash_and_position (cfg : ExecConfig) (allocation_pct : ℚ)
    (symbol : String) (mp : ℚ) (p : Portfolio)
    (hspend : 10 ≤ min (cfg.initial_capital * (allocation_pct / 100) * cfg.position_size_pct) p.cash)
    (hmp : 0 < mp) (hslip : 0 ≤ cfg.slippage_pct) :
    (execute_buy cfg allocation_pct symbol (some mp) p).1.cash
        = p.cash - min (cfg.initial_capital * (allocation_pct / 100) * cfg.position_size_pct) p.cash
            * (1001 / 1000) ∧
    (execute_buy cfg allocation_pct symbol (some mp) p).1.cash < p.cash ∧
    lookupKey (execute_buy cfg allocation_pct symbol (some mp) p).1.positions symbol
        = some ((lookupKey p.positions symbol).getD 0
            + min (cfg.initial_capital * (allocation_pct / 100) * cfg.position_size_pct) p.cash
              / (if cfg.slippage_enabled then mp * (1 + cfg.slippage_pct) else mp)) ∧
    0 < min (cfg.initial_capital * (allocation_pct / 100) * cfg.position_size_pct) p.cash
          / (if cfg.slippage_enabled then mp * (1 + cfg.slippage_pct) else mp) ∧
    -(min (cfg.initial_capital * (allocation_pct / 100) * cfg.position_size_pct) p.cash * (1 / 1000))
        ≤ (execute_buy cfg allocation_pct symbol (some mp) p).1.cash := by
  set spend := min (cfg.initial_capital * (allocation_pct / 100) * cfg.position_size_pct) p.cash
    with hspend_def
  have hnotlt : ¬ spend < 10 := not_lt.mpr hspend
  have hspend_pos : 0 < spend := lt_of_lt_of_le (by norm_num) hspend
  have hspend_le_cash : spend ≤ p.cash := min_le_right _ _
  have hfp_pos : 0 < (if cfg.slippage_enabled then mp * (1 + cfg.slippage_pct) else mp) := by
    by_cases hs : cfg.slippage_enabled
    · simp only [hs, if_true]
      exact mul_pos hmp (by linarith)
    · simpa [hs] using hmp
  set fp := if cfg.slippage_enabled then mp * (1 + cfg.slippage_pct) else mp with hfp_def
  have hfp_ne : fp ≠ 0 := ne_of_gt hfp_pos
  have hrun : execute_buy cfg allocation_pct symbol (some mp) p
      = ({ cash := p.cash - (spend / fp * fp + spend / fp * fp * (1 / 1000)),
           positions := updateKey p.positions symbol
             ((lookupKey p.positions symbol).getD 0 + spend / fp) },
         some ⟨.buy, symbol, spend / fp, fp, spend / fp * fp * (1 / 1000)⟩) := by
    simp only [execute_buy, calculate_slippage_price, ← hspend_def, ← hfp_def, hnotlt, if_false]
  have hcancel : spend / fp * fp = spend := div_mul_cancel₀ spend hfp_ne
  rw [hrun]
  refine ⟨by rw [hcancel]; ring, ?_, ?_, ?_, ?_⟩
  · rw [hcancel]
    have : 0 < spend + spend * (1 / 1000) := by linarith
    simp only []
    linarith
  · simp only []
    exact lookupKey_updateKey_self _ _ _
  · exact div_pos hspend_pos hfp_pos
  · rw [hcancel]
    simp only []
    linarith

/-- C4 witness: a concrete buy — capital 10000, allocation 10%, position
size 20%, cash 1000, price 10: spend is 200, cash drops to 799.8, the
position is created at quantity 20. -/
theorem execute_buy_cash_and_position_witness :
    (execute_buy ⟨10000, 1 / 5, 1 / 2, false, 1 / 1000⟩ 10 "BTCUSDT"
        (some 10) ⟨1000, []⟩).1.cash = 1000 - 200 * (1001 / 1000) ∧
    lookupKey (execute_buy ⟨10000, 1 / 5, 1 / 2, false, 1 / 1000⟩ 10 "BTCUSDT"
        (some 10) ⟨1000, []⟩).1.positions "BTCUSDT" = some 20 := by
  have h := execute_buy_cash_and_position ⟨10000, 1 / 5, 1 / 2, false, 1 / 1000⟩ 10
    "BTCUSDT" 10 ⟨1000, []⟩ (by norm_num) (by norm_num) (by norm_num)
  refine ⟨?_, ?_⟩
  · have := h.1
    norm_num at this ⊢
    exact this
  · have := h.2.2.1
    norm_num [lookupKey] at this ⊢
    exact this

/-- C5 counterexample: selling 50% of a position of exactly 0.0002 at a
known price leaves a remaining quantity of exactly 0.0001 — equal to the
dust threshold.  The claim says a resulting quantity equal to the threshold
is kept, but the code's test is `<= Decimal('0.0001')`, so the position
entry is removed. -/
theorem execute_sell_dust_boundary_counterexample :
    (1 / 5000 : ℚ) - (1 / 5000) * (1 / 2) = 1 / 10000 ∧
    lookupKey (execute_sell ⟨10000, 1 / 5, 1 / 2, false, 1 / 1000⟩ "BTCUSDT"
        (some 10) ⟨0, [("BTCUSDT", 1 / 5000)]⟩).1.positions "BTCUSDT" = none := by
  constructor
  · norm_num
  · norm_num [execute_sell, lookupKey, updateKey, removeKey, List.find?, List.filter]

/-- C5 (amended): for a paper-mode sell on a symbol with a positive
position and a known price, the sell reduces the position quantity by
exactly `position_qty × exit_pct`, increases cash by exactly
`quantity × fill_price − fee`, and the position entry is removed if and
only if the resulting quantity is at most (not strictly below) the dust
threshold `0.0001`: a resulting quantity equal to the threshold is removed,
one strictly above it is kept. -/
theorem execute_sell_reduces_position (cfg : ExecConfig) (symbol : String)
    (mp : ℚ) (p : Portfolio) (q0 : ℚ)
    (hpos : lookupKey p.positions symbol = some q0) (hq0 : 0 < q0) :
    (execute_sell cfg symbol (some mp) p).1.cash
        = p.cash + (q0 * cfg.position_exit_pct
            * (if cfg.slippage_enabled then mp * (1 - cfg.slippage_pct) else mp)
          - q0 * cfg.position_exit_pct
            * (if cfg.slippage_enabled then mp * (1 - cfg.slippage_pct) else mp) * (1 / 1000)) ∧
    (q0 - q0 * cfg.position_exit_pct ≤ 1 / 10000 →
      lookupKey (execute_sell cfg symbol (some mp) p).1.positions symbol = none) ∧
    (¬ q0 - q0 * cfg.position_exit_pct ≤ 1 / 10000 →
      lookupKey (execute_sell cfg symbol (some mp) p).1.positions symbol
        = some (q0 - q0 * cfg.position_exit_pct)) := by
  have hnot : ¬ q0 ≤ 0 := not_le.mpr hq0
  set fp := if cfg.slippage_enabled then mp * (1 - cfg.slippage_pct) else mp with hfp_def
  have hrun : execute_sell cfg symbol (some mp) p
      = ({ cash := p.cash + (q0 * cfg.position_exit_pct * fp
             - q0 * cfg.position_exit_pct * fp * (1 / 1000)),
           positions :=
             if q0 - q0 * cfg.position_exit_pct ≤ 1 / 10000 then
               removeKey (updateKey p.positions symbol (q0 - q0 * cfg.position_exit_pct)) symbol
             else updateKey p.positions symbol (q0 - q0 * cfg.position_exit_pct) },
         some ⟨.sell, symbol, q0 * cfg.position_exit_pct, fp,
           q0 * cfg.position_exit_pct * fp * (1 / 1000)⟩) := by
    simp only [execute_sell, calculate_slippage_price, hpos, hnot, if_false, ← hfp_def]
  rw [hrun]
  refine ⟨rfl, ?_, ?_⟩
  · intro hdust
    simp only [hdust, if_true]
    exact lookupKey_removeKey_self _ _
  · intro hdust
    simp only [hdust, if_false]
    exact lookupKey_updateKey_self _ _ _

/-- C5 witness: selling 50% of a 2-unit position at price 10 (no slippage):
cash grows by `10 − 0.01`, and the remaining 1-unit position (well above
the dust threshold) is kept. -/
theorem execute_sell_reduces_position_witness :
    (execute_sell ⟨10000, 1 / 5, 1 / 2, false, 1 / 1000⟩ "BTCUSDT" (some 10)
        ⟨0, [("BTCUSDT", 2)]⟩).1.cash = 999 / 100 ∧
    lookupKey (execute_sell ⟨10000, 1 / 5, 1 / 2, false, 1 / 1000⟩ "BTCUSDT" (some 10)
        ⟨0, [("BTCUSDT", 2)]⟩).1.positions "BTCUSDT" = some 1 := by
  have h := execute_sell_reduces_position ⟨10000, 1 / 5, 1 / 2, false, 1 / 1000⟩
    "BTCUSDT" 10 ⟨0, [("BTCUSDT", 2)]⟩ 2
    (by norm_num [lookupKey, List.find?]) (by norm_num)
  refine ⟨?_, ?_⟩
  · have := h.1
    norm_num at this ⊢
    exact this
  · have := h.2.2 (by norm_num)
    norm_num at this ⊢
    exact this

-- ---------------------------------------------------------------------------
-- Live-mode order execution (TradeExecutionAgent._execute_order_real)
-- ---------------------------------------------------------------------------

/-- One fill as reported by the exchange in the order result. -/
structure Fill where
  qty : ℚ
  price : ℚ
  commission : ℚ
deriving DecidableEq, Repr

/-- Outcome of the exchange call: a `BinanceAPIException` with its code and
message, or a successful order result with its fills. -/
inductive BinanceResult
  | apiError (code : Int) (message : String)
  | ok (orderId : String) (fills : List Fill)
deriving DecidableEq, Repr

/-- Events the live execution path publishes. -/
inductive ExecEvent
  | tradeExecuted (strategy_name symbol : String) (side : Side)
      (quantity price fee : ℚ) (order_id : Option String)
  | tradeError (strategy_name symbol : String) (error_type error_message : String)
deriving DecidableEq, Repr

def totalQty (fills : List Fill) : ℚ := (fills.map (·.qty)).sum

def totalCost (fills : List Fill) : ℚ := (fills.map (fun f => f.qty * f.price)).sum

def totalFee (fills : List Fill) : ℚ := (fills.map (·.commission)).sum

/-- `TradeExecutionAgent._execute_order_real`: the whole body is one `try`
block.  A missing client raises `ValueError` and an empty fill list raises
`ValueError`, both caught by the generic handler; a `BinanceAPIException`
from the exchange call is caught by its own handler; each handler publishes
a `TradeErrorEvent`.  The portfolio is only touched after a successful call,
using the totals of the fills the exchange reported.  On a sell, Python
evaluates `portfolio['cash'] += ...` before `portfolio['positions'][symbol]
-= ...`, so a missing position raises `KeyError` after cash was already
credited — modelled faithfully in the `none` branch. -/
def execute_order_real (strategy_name symbol : String) (side : Side)
    (binance_ready : Bool) (result : BinanceResult) (p : Portfolio) :
    Portfolio × List ExecEvent :=
  if binance_ready = false then
    (p, [.tradeError strategy_name symbol "execution_error" "Binance client not initialized"])
  else
    match result with
    | .apiError code message =>
        (p, [.tradeError strategy_name symbol "binance_api_error"
              (toString code ++ ": " ++ message)])
    | .ok orderId fills =>
        if fills = [] then
          (p, [.tradeError strategy_name symbol "execution_error" "No fills returned from Binance"])
        else
          let total_qty := totalQty fills
          let total_cost := totalCost fills
          let total_fee := totalFee fills
          let avg_fill_price := if 0 < total_qty then total_cost / total_qty else 0
          match side with
          | .buy =>
              ({ cash := p.cash - (total_cost + total_fee),
                 positions := updateKey p.positions symbol
                   ((lookupKey p.positions symbol).getD 0 + total_qty) },
               [.tradeExecuted strategy_name symbol .buy total_qty avg_fill_price
                 total_fee (some orderId)])
          | .sell =>
              match lookupKey p.positions symbol with
              | none =>
                  ({ p with cash := p.cash + (total_cost - total_fee) },
                   [.tradeError strategy_name symbol "execution_error"
                     ("KeyError: " ++ symbol)])
              | some q0 =>
                  let remaining := q0 - total_qty
                  let positions1 := updateKey p.positions symbol remaining
                  let positions2 :=
                    if remaining ≤ 1 / 10000 then removeKey positions1 symbol else positions1
                  ({ cash := p.cash + (total_cost - total_fee), positions := positions2 },
                   [.tradeExecuted strategy_name symbol .sell total_qty avg_fill_price
                     total_fee (some orderId)])

/-- C9: when the exchange call raises an exchange-level error
(`BinanceAPIException`), the live execution path publishes a `TradeError`
event (never a silent drop) and returns the in-memory portfolio exactly as
it was — no optimistic mutation; and on a successful call the portfolio is
mutated only from the totals of the fills the exchange actually reported:
a buy moves cash by exactly `−(total_cost + total_fee)` and the position by
exactly `+total_qty`, a sell moves cash by exactly `total_cost − total_fee`. -/
theorem real_order_error_no_mutation (strategy_name symbol : String) (side : Side)
    (p : Portfolio) (code : Int) (message : String) :
    execute_order_real strategy_name symbol side true (.apiError code message) p
      = (p, [.tradeError strategy_name symbol "binance_api_error"
          (toString code ++ ": " ++ message)]) ∧
    (∀ orderId fills, fills ≠ [] →
      (execute_order_real strategy_name symbol .buy true (.ok orderId fills) p).1.cash
          = p.cash - (totalCost fills + totalFee fills) ∧
      lookupKey (execute_order_real strategy_name symbol .buy true
            (.ok orderId fills) p).1.positions symbol
          = some ((lookupKey p.positions symbol).getD 0 + totalQty fills) ∧
      (execute_order_real strategy_name symbol .sell true (.ok orderId fills) p).1.cash
          = p.cash + (totalCost fills - totalFee fills)) := by
  refine ⟨rfl, ?_⟩
  intro orderId fills hne
  refine ⟨?_, ?_, ?_⟩
  · simp only [execute_order_real, hne, if_false, Bool.true_eq_false]
  · simp only [execute_order_real, hne, if_false, Bool.true_eq_false]
    exact lookupKey_updateKey_self _ _ _
  · simp only [execute_order_real, hne, if_false, Bool.true_eq_false]
    cases lookupKey p.positions symbol <;> simp

/-- C9 witness: a concrete rejected sell (`code -1013`) leaves the
portfolio intact, and a successful one-fill buy applies exactly the
reported quantity, cost and commission. -/
theorem real_order_error_no_mutation_witness :
    execute_order_real "momentum" "BTCUSDT" .sell true (.apiError (-1013) "Filter failure")
        ⟨1000, [("BTCUSDT", 5)]⟩
      = (⟨1000, [("BTCUSDT", 5)]⟩,
         [.tradeError "momentum" "BTCUSDT" "binance_api_error" "-1013: Filter failure"]) ∧
    (execute_order_real "momentum" "BTCUSDT" .buy true
        (.ok "42" [⟨2, 100, 1 / 5⟩]) ⟨1000, []⟩).1.cash = 1000 - (200 + 1 / 5) := by
  have h := real_order_error_no_mutation "momentum" "BTCUSDT" .sell
    ⟨1000, [("BTCUSDT", 5)]⟩ (-1013) "Filter failure"
  refine ⟨?_, ?_⟩
  · have := h.1
    rw [this]
    rfl
  · have h2 := (real_order_error_no_mutation "momentum" "BTCUSDT" .sell
      ⟨1000, []⟩ (-1013) "x").2 "42" [⟨2, 100, 1 / 5⟩] (by simp)
    have := h2.1
    rw [this]
    norm_num [totalCost, totalFee]

-- ---------------------------------------------------------------------------
-- Fork lifecycle manager (src/agents/fork_manager.py)
-- ---------------------------------------------------------------------------

/-- Metadata tracked for each Active fork (`self.active_forks[fork_id]`);
timestamps are seconds. -/
structure ForkMeta where
  requesting_agent : String
  purpose : String
  created_at : ℚ
  ttl_seconds : ℚ
deriving DecidableEq, Repr

/-- A `ForkRequestEvent`. -/
structure ForkRequest where
  requesting_agent : String
  purpose : String
  ttl_seconds : ℚ
deriving DecidableEq, Repr

/-- The fork manager's tracking state. -/
structure ForkManagerState where
  max_concurrent_forks : Nat
  active_forks : List (String × ForkMeta)
deriving DecidableEq, Repr

def initialForkManager (max_concurrent_forks : Nat := 10) : ForkManagerState :=
  { max_concurrent_forks := max_concurrent_forks, active_forks := [] }

/-- Outcome of the external `tsdb` CLI call made while provisioning:
success with the new fork's service id, or any of the caught failures
(`TimeoutExpired`, `CalledProcessError`, `JSONDecodeError`, or a failing
connection-parameter fetch), all of which leave the state unchanged. -/
inductive CliResult
  | ok (fork_service_id : String)
  | failed
deriving DecidableEq, Repr

/-- `ForkManagerAgent._create_fork`: reject outright when the number of
Active forks has reached the maximum (no state created); otherwise attempt
the external create, and only on success record the fork with its creation
time and TTL. -/
def create_fork (s : ForkManagerState) (req : ForkRequest) (cli : CliResult)
    (now : ℚ) : ForkManagerState :=
  if s.max_concurrent_forks ≤ s.active_forks.length then s
  else
    match cli with
    | .failed => s
    | .ok fid =>
        { s with
          active_forks := updateKey s.active_forks fid
            ⟨req.requesting_agent, req.purpose, now, req.ttl_seconds⟩ }

/-- `ForkManagerAgent._destroy_fork`: unknown forks are ignored; the
external delete is attempted and only on success is the fork removed from
tracking — a failed delete leaves the fork tracked so that the sweep can
retry it. -/
def destroy_fork (s : ForkManagerState) (fork_id : String) (delete_ok : Bool) :
    ForkManagerState :=
  match lookupKey s.active_forks fork_id with
  | none => s
  | some _ =>
      if delete_ok then { s with active_forks := removeKey s.active_forks fork_id }
      else s

/-- `ForkManagerAgent._handle_fork_completion`: destroy the named fork if it
is currently tracked. -/
def handle_fork_completion (s : ForkManagerState) (fork_id : String)
    (delete_ok : Bool) : ForkManagerState :=
  match lookupKey s.active_forks fork_id with
  | none => s
  | some _ => destroy_fork s fork_id delete_ok

/-- The expiry test of one sweep pass:
`(now - created_at).total_seconds() > ttl_seconds`. -/
def fork_expired (now : ℚ) (m : ForkMeta) : Bool :=
  decide (m.ttl_seconds < now - m.created_at)

/-- One pass of `ForkManagerAgent._cleanup_expired_forks`: collect the
Active forks whose age strictly exceeds their TTL, then destroy each.
`delete_ok` records which external delete calls succeed. -/
def cleanup_expired_forks (s : ForkManagerState) (now : ℚ)
    (delete_ok : String → Bool) : ForkManagerState :=
  ((s.active_forks.filter (fun kv => fork_expired now kv.2)).map (·.1)).foldl
    (fun st fid => destroy_fork st fid (delete_ok fid)) s

/-- `ForkManagerAgent.stop`: destroy every currently Active fork,
regardless of its remaining TTL, before the manager finishes stopping. -/
def fork_manager_stop (s : ForkManagerState) (delete_ok : String → Bool) :
    ForkManagerState :=
  (s.active_forks.map (·.1)).foldl (fun st fid => destroy_fork st fid (delete_ok fid)) s

/-- The fork manager's event-driven interface: a fork request, a completion
event, one periodic sweep pass, or shutdown. -/
inductive ForkOp
  | request (req : ForkRequest) (cli : CliResult) (now : ℚ)
  | completion (fork_id : String) (delete_ok : Bool)
  | sweep (now : ℚ) (delete_ok : String → Bool)
  | shutdown (delete_ok : String → Bool)

def applyForkOp (s : ForkManagerState) : ForkOp → ForkManagerState
  | .request req cli now => create_fork s req cli now
  | .completion fid ok => handle_fork_completion s fid ok
  | .sweep now ok => cleanup_expired_forks s now ok
  | .shutdown ok => fork_manager_stop s ok

def runForkOps (s : ForkManagerState) (ops : List ForkOp) : ForkManagerState :=
  ops.foldl applyForkOp s

theorem destroy_fork_max (s : ForkManagerState) (fid : String) (ok : Bool) :
    (destroy_fork s fid ok).max_concurrent_forks = s.max_concurrent_forks := by
  unfold destroy_fork
  cases lookupKey s.active_forks fid <;> [rfl; cases ok <;> simp]

theorem destroy_fork_length_le (s : ForkManagerState) (fid : String) (ok : Bool) :
    (destroy_fork s fid ok).active_forks.length ≤ s.active_forks.length := by
  unfold destroy_fork
  cases lookupKey s.active_forks fid with
  | none => exact le_refl _
  | some m =>
      cases ok with
      | false => simp
      | true => simpa using length_removeKey_le s.active_forks fid

theorem foldl_destroy_max (ks : List String) (dok : String → Bool) (s : ForkManagerState) :
    (ks.foldl (fun st fid => destroy_fork st fid (dok fid)) s).max_concurrent_forks
      = s.max_concurrent_forks := by
  induction ks generalizing s with
  | nil => rfl
  | cons k rest ih => simpa [List.foldl_cons, destroy_fork_max] using
      (ih (destroy_fork s k (dok k))).trans (destroy_fork_max s k (dok k))

theorem foldl_destroy_length_le (ks : List String) (dok : String → Bool)
    (s : ForkManagerState) :
    (ks.foldl (fun st fid => destroy_fork st fid (dok fid)) s).active_forks.length
      ≤ s.active_forks.length := by
  induction ks generalizing s with
  | nil => exact le_refl _
  | cons k rest ih =>
      exact le_trans (ih (destroy_fork s k (dok k))) (destroy_fork_length_le s k (dok k))

theorem handle_fork_completion_max (s : ForkManagerState) (fid : String) (ok : Bool) :
    (handle_fork_completion s fid ok).max_concurrent_forks = s.max_concurrent_forks := by
  unfold handle_fork_completion
  cases lookupKey s.active_forks fid
  · rfl
  · exact destroy_fork_max s fid ok

theorem handle_fork_completion_length_le (s : ForkManagerState) (fid : String) (ok : Bool) :
    (handle_fork_completion s fid ok).active_forks.length ≤ s.active_forks.length := by
  unfold handle_fork_completion
  cases lookupKey s.active_forks fid
  · exact le_refl _
  · exact destroy_fork_length_le s fid ok

theorem create_fork_max (s : ForkManagerState) (req : ForkRequest) (cli : CliResult)
    (now : ℚ) :
    (create_fork s req cli now).max_concurrent_forks = s.max_concurrent_forks := by
  unfold create_fork
  by_cases h : s.max_concurrent_forks ≤ s.active_forks.length
  · simp [h]
  · cases cli <;> simp [h]

theorem create_fork_length (s : ForkManagerState) (req : ForkRequest) (cli : CliResult)
    (now : ℚ) (h : s.active_forks.length ≤ s.max_concurrent_forks) :
    (create_fork s req cli now).active_forks.length ≤ s.max_concurrent_forks := by
  unfold create_fork
  by_cases hcap : s.max_concurrent_forks ≤ s.active_forks.length
  · simpa [hcap] using h
  · cases cli with
    | failed => simpa [hcap] using h
    | ok fid =>
        simp only [hcap, if_false]
        show (updateKey s.active_forks fid
          ⟨req.requesting_agent, req.purpose, now, req.ttl_seconds⟩).length
            ≤ s.max_concurrent_forks
        have hupd := length_updateKey_le s.active_forks fid
          ⟨req.requesting_agent, req.purpose, now, req.ttl_seconds⟩
        have hlt := lt_of_not_le hcap
        omega

theorem applyForkOp_max (s : ForkManagerState) (op : ForkOp) :
    (applyForkOp s op).max_concurrent_forks = s.max_concurrent_forks := by
  cases op with
  | request req cli now => exact create_fork_max s req cli now
  | completion fid ok => exact handle_fork_completion_max s fid ok
  | sweep now dok => exact foldl_destroy_max _ dok s
  | shutdown dok => exact foldl_destroy_max _ dok s

theorem applyForkOp_length (s : ForkManagerState) (op : ForkOp)
    (h : s.active_forks.length ≤ s.max_concurrent_forks) :
    (applyForkOp s op).active_forks.length ≤ s.max_concurrent_forks := by
  cases op with
  | request req cli now => exact create_fork_length s req cli now h
  | completion fid ok => exact le_trans (handle_fork_completion_length_le s fid ok) h
  | sweep now dok => exact le_trans (foldl_destroy_length_le _ dok s) h
  | shutdown dok => exact le_trans (foldl_destroy_length_le _ dok s) h

theorem runForkOps_invariant (ops : List ForkOp) (s : ForkManagerState)
    (h : s.active_forks.length ≤ s.max_concurrent_forks) :
    (runForkOps s ops).active_forks.length ≤ (runForkOps s ops).max_concurrent_forks := by
  induction ops generalizing s with
  | nil => simpa [runForkOps] using h
  | cons op rest ih =>
      have hmax := applyForkOp_max s op
      have hlen := applyForkOp_length s op h
      simpa [runForkOps] using ih (applyForkOp s op) (by rw [hmax]; exact hlen)

/-- C6: over every sequence of fork requests, completions, sweeps and
shutdowns starting from an empty manager, the number of Active (tracked)
forks never exceeds `max_concurrent_forks`; and a request arriving while
the active count equals the maximum is rejected with the whole state
unchanged (no fork state created, active count unchanged). -/
theorem fork_capacity_never_exceeded (max : Nat) (ops : List ForkOp)
    (s : ForkManagerState) (req : ForkRequest) (cli : CliResult) (now : ℚ) :
    (runForkOps (initialForkManager max) ops).active_forks.length ≤ max ∧
    (s.active_forks.length = s.max_concurrent_forks → create_fork s req cli now = s) := by
  constructor
  · have h := runForkOps_invariant ops (initialForkManager max) (by simp [initialForkManager])
    have hm : (runForkOps (initialForkManager max) ops).max_concurrent_forks = max := by
      have : ∀ l t, (runForkOps t l).max_concurrent_forks = t.max_concurrent_forks := by
        intro l
        induction l with
        | nil => intro t; rfl
        | cons op rest ih =>
            intro t
            simpa [runForkOps] using (ih (applyForkOp t op)).trans (applyForkOp_max t op)
      exact this ops (initialForkManager max)
    rw [hm] at h
    exact h
  · intro hfullcap
    simp [create_fork, hfullcap.ge]

/-- C6 witness: with capacity 1, a first request creates a fork (count 1 ≤
1) and a second request arriving at capacity leaves the state unchanged. -/
theorem fork_capacity_never_exceeded_witness :
    (runForkOps (initialForkManager 1)
        [.request ⟨"strategy", "backtest", 3600⟩ (.ok "fork-1") 0]).active_forks.length ≤ 1 ∧
    create_fork ⟨1, [("fork-1", ⟨"strategy", "backtest", 0, 3600⟩)]⟩
        ⟨"meta", "experiment", 600⟩ (.ok "fork-2") 5
      = ⟨1, [("fork-1", ⟨"strategy", "backtest", 0, 3600⟩)]⟩ := by
  have h := fork_capacity_never_exceeded 1
    [.request ⟨"strategy", "backtest", 3600⟩ (.ok "fork-1") 0]
    ⟨1, [("fork-1", ⟨"strategy", "backtest", 0, 3600⟩)]⟩
    ⟨"meta", "experiment", 600⟩ (.ok "fork-2") 5
  exact ⟨h.1, h.2 (by decide)⟩

theorem lookupKey_eq_none_iff {α : Type} (l : List (String × α)) (k : String) :
    lookupKey l k = none ↔ ∀ kv ∈ l, kv.1 ≠ k := by
  simp [lookupKey, List.find?_eq_none]

theorem removeKey_eq_self {α : Type} (l : List (String × α)) (k : String)
    (h : ∀ kv ∈ l, kv.1 ≠ k) : removeKey l k = l := by
  unfold removeKey
  exact List.filter_eq_self.mpr (fun kv hkv => by simpa using h kv hkv)

theorem destroy_fork_ok_active (s : ForkManagerState) (fid : String) :
    (destroy_fork s fid true).active_forks = removeKey s.active_forks fid := by
  unfold destroy_fork
  cases hc : lookupKey s.active_forks fid with
  | none =>
      exact (removeKey_eq_self s.active_forks fid
        ((lookupKey_eq_none_iff s.active_forks fid).mp hc)).symm
  | some m => simp

theorem foldl_removeKey_filter {α : Type} (ks : List String) (l : List (String × α)) :
    ks.foldl removeKey l = l.filter (fun kv => decide (¬ kv.1 ∈ ks)) := by
  induction ks generalizing l with
  | nil => simp
  | cons k rest ih =>
      rw [List.foldl_cons, ih]
      unfold removeKey
      rw [List.filter_filter]
      apply List.filter_congr
      intro kv _
      by_cases h1 : kv.1 = k <;> by_cases h2 : kv.1 ∈ rest <;>
        simp [h1, h2, List.mem_cons]

theorem foldl_destroy_all_ok (dok : String → Bool) (ks : List String)
    (s : ForkManagerState) (hok : ∀ k ∈ ks, dok k = true) :
    (ks.foldl (fun st fid => destroy_fork st fid (dok fid)) s).active_forks
      = s.active_forks.filter (fun kv => decide (¬ kv.1 ∈ ks)) := by
  rw [← foldl_removeKey_filter ks s.active_forks]
  induction ks generalizing s with
  | nil => rfl
  | cons k rest ih =>
      rw [List.foldl_cons, List.foldl_cons]
      have hk : dok k = true := hok k (List.mem_cons_self k rest)
      rw [show destroy_fork s k (dok k) = destroy_fork s k true by rw [hk]]
      have hactive := destroy_fork_ok_active s k
      have ihs := ih (destroy_fork s k true)
        (fun k' hk' => hok k' (List.mem_cons_of_mem k hk'))
      rw [ihs, hactive]

/-- C7: when `ForkManagerAgent.stop` is invoked, the external delete is
attempted for every currently Active fork regardless of remaining TTL, and
when every teardown call succeeds, every Active fork is removed from
tracking: the active fork set is empty after `stop()` completes. -/
theorem stop_destroys_all_active_forks (s : ForkManagerState)
    (delete_ok : String → Bool)
    (hok : ∀ k ∈ s.active_forks.map Prod.fst, delete_ok k = true) :
    (fork_manager_stop s delete_ok).active_forks = [] := by
  unfold fork_manager_stop
  rw [foldl_destroy_all_ok delete_ok _ s (by simpa using hok)]
  rw [List.filter_eq_nil_iff]
  intro kv hkv
  simp only [decide_not, Bool.not_eq_true', decide_eq_false_iff_not, not_not]
  exact List.mem_map_of_mem Prod.fst hkv

/-- C7 witness: stopping a manager tracking two forks with plenty of TTL
left destroys both. -/
theorem stop_destroys_all_active_forks_witness :
    (fork_manager_stop
        ⟨10, [("fork-1", ⟨"strategy", "backtest", 0, 3600⟩),
              ("fork-2", ⟨"meta", "experiment", 50, 7200⟩)]⟩
        (fun _ => true)).active_forks = [] :=
  stop_destroys_all_active_forks
    ⟨10, [("fork-1", ⟨"strategy", "backtest", 0, 3600⟩),
          ("fork-2", ⟨"meta", "experiment", 50, 7200⟩)]⟩
    (fun _ => true) (by intro k _; rfl)

theorem keys_nodup_val_unique {α : Type} (l : List (String × α))
    (hnodup : (l.map Prod.fst).Nodup) {k : String} {a b : α}
    (ha : (k, a) ∈ l) (hb : (k, b) ∈ l) : a = b := by
  induction l with
  | nil => cases ha
  | cons kv rest ih =>
      rw [List.map_cons, List.nodup_cons] at hnodup
      rcases List.mem_cons.mp ha with ha0 | ha1 <;>
        rcases List.mem_cons.mp hb with hb0 | hb1
      · rw [← ha0] at hb0
        exact congrArg Prod.snd hb0.symm
      · exfalso
        apply hnodup.1
        have hk : k ∈ List.map Prod.fst rest := List.mem_map_of_mem Prod.fst hb1
        rw [← ha0]
        exact hk
      · exfalso
        apply hnodup.1
        have hk : k ∈ List.map Prod.fst rest := List.mem_map_of_mem Prod.fst ha1
        rw [← hb0]
        exact hk
      · exact ih hnodup.2 ha1 hb1

/-- C8: one pass of the periodic cleanup sweep (with all attempted external
deletes succeeding, over a registry with unique fork ids as a Python dict
guarantees) destroys an Active fork if and only if `now - created_at`
strictly exceeds its `ttl_seconds`: the fork stays tracked exactly when its
age is at most its TTL.  In particular a fork aged `ttl - 1` seconds
survives the sweep and a fork aged `ttl + 1` seconds does not (see the
witness). -/
theorem sweep_destroys_iff_expired (s : ForkManagerState) (now : ℚ)
    (delete_ok : String → Bool)
    (hok : ∀ k ∈ s.active_forks.map Prod.fst, delete_ok k = true)
    (hnodup : (s.active_forks.map Prod.fst).Nodup) :
    ∀ fid m, (fid, m) ∈ s.active_forks →
      ((fid, m) ∈ (cleanup_expired_forks s now delete_ok).active_forks
        ↔ now - m.created_at ≤ m.ttl_seconds) := by
  intro fid m hmem
  unfold cleanup_expired_forks
  rw [foldl_destroy_all_ok delete_ok _ s (by
    intro k hk
    apply hok
    rcases List.mem_map.mp hk with ⟨kv, hkv, rfl⟩
    exact List.mem_map_of_mem Prod.fst (List.mem_of_mem_filter hkv))]
  rw [List.mem_filter]
  constructor
  · intro h
    have hnotin := h.2
    simp only [decide_not, Bool.not_eq_true', decide_eq_false_iff_not] at hnotin
    by_contra hlt
    apply hnotin
    have hexp : fork_expired now m = true := by
      unfold fork_expired
      simpa using lt_of_not_le hlt
    exact List.mem_map_of_mem Prod.fst (List.mem_filter.mpr ⟨hmem, hexp⟩)
  · intro hage
    refine ⟨hmem, ?_⟩
    simp only [decide_not, Bool.not_eq_true', decide_eq_false_iff_not]
    intro hin
    rcases List.mem_map.mp hin with ⟨kv, hkv, hfst⟩
    have hkv_mem := List.mem_of_mem_filter hkv
    have hkv_exp := List.of_mem_filter hkv
    have : kv.2 = m := by
      apply keys_nodup_val_unique s.active_forks hnodup _ hmem
      rw [← hfst]
      simpa using hkv_mem
    rw [this] at hkv_exp
    unfold fork_expired at hkv_exp
    exact absurd hage (not_le.mpr (of_decide_eq_true hkv_exp))

/-- C8 witness: with TTL 100 and `now = 1000`, a fork created at `t = 901`
(age 99 = ttl − 1) survives one sweep and a fork created at `t = 899`
(age 101 = ttl + 1) is destroyed. -/
theorem sweep_destroys_iff_expired_witness :
    ("young", (⟨"a", "p", 901, 100⟩ : ForkMeta)) ∈
      (cleanup_expired_forks
        ⟨10, [("young", ⟨"a", "p", 901, 100⟩), ("old", ⟨"b", "q", 899, 100⟩)]⟩
        1000 (fun _ => true)).active_forks ∧
    ("old", (⟨"b", "q", 899, 100⟩ : ForkMeta)) ∉
      (cleanup_expired_forks
        ⟨10, [("young", ⟨"a", "p", 901, 100⟩), ("old", ⟨"b", "q", 899, 100⟩)]⟩
        1000 (fun _ => true)).active_forks := by
  have h := sweep_destroys_iff_expired
    ⟨10, [("young", ⟨"a", "p", 901, 100⟩), ("old", ⟨"b", "q", 899, 100⟩)]⟩
    1000 (fun _ => true) (by intro k _; rfl) (by decide)
  constructor
  · exact (h "young" ⟨"a", "p", 901, 100⟩ (by decide)).mpr (by norm_num)
  · intro hmem
    have := (h "old" ⟨"b", "q", 899, 100⟩ (by decide)).mp hmem
    norm_num at this

end Icarus
